import Mathlib

/-!
Verification development for the icon grid extractor
(src/Image/icon_grid_extractor.py): a shallow embedding of its mask engine,
transparent-border trimming, grid partition, cell export pipeline, draggable
grid-line state, and sidecar-file persistence, together with theorems about
the properties claimed for them.

Modelling conventions:
  * numpy uint8 buffers are modelled as total functions from coordinates to
    natural-number channel values; the uint8/uint16 casts that matter are made
    explicit with `% 2^8` / `% 2^16`.
  * Python ints are `Int` (or `Nat` where the source guarantees nonnegativity),
    Python floats are `Rat` (the float arithmetic in play here is small-integer
    ratio arithmetic, exact in the reference behaviour).
  * Calls into the image library (LANCZOS resampling, Gaussian blur, file
    encoding) are external collaborators: resampling is tracked at the level of
    the produced buffer dimensions, and the blur is an opaque parameter.
-/

set_option maxHeartbeats 1000000

namespace IconGrid

/-- Python helper clamp(v, lo, hi) = max(lo, min(hi, v)). -/
def clamp (v lo hi : ℤ) : ℤ := max lo (min hi v)

/-- An RGBA pixel (red, green, blue, alpha); each channel is conceptually an
8-bit value. -/
abbrev Pixel := ℕ × ℕ × ℕ × ℕ

/-- The alpha channel of a pixel. -/
def alphaOf (p : Pixel) : ℕ := p.2.2.2

/-- The three color channels of a pixel. -/
def rgbOf (p : Pixel) : ℕ × ℕ × ℕ := (p.1, p.2.1, p.2.2.1)

/-- An RGBA image buffer of width `W` and height `H`; `pix x y` is the pixel in
column x (0-based from the left) and row y (0-based from the top). -/
structure Img where
  W : ℕ
  H : ℕ
  pix : ℕ → ℕ → Pixel

/-- The rectangular sub-buffer rgba[y0:y1, x0:x1] (numpy slicing with in-range
nonnegative bounds, as produced by the partition). -/
def subImg (img : Img) (x0 x1 y0 y1 : ℕ) : Img :=
  ⟨x1 - x0, y1 - y0, fun x y => img.pix (x0 + x) (y0 + y)⟩

/-- np.all(cell[..., 3] == 0): every pixel of the buffer is fully transparent. -/
def allTransparent (img : Img) : Bool :=
  (List.range img.H).all fun y =>
    (List.range img.W).all fun x => alphaOf (img.pix x y) == 0

/-- Column indices that hold at least one pixel with alpha > 0
(the xs of np.where(a > 0)). -/
def alphaCols (img : Img) : List ℕ :=
  (List.range img.W).filter fun x =>
    (List.range img.H).any fun y => decide (0 < alphaOf (img.pix x y))

/-- Row indices that hold at least one pixel with alpha > 0
(the ys of np.where(a > 0)). -/
def alphaRows (img : Img) : List ℕ :=
  (List.range img.H).filter fun y =>
    (List.range img.W).any fun x => decide (0 < alphaOf (img.pix x y))

/-- trim_transparent: crop to the tightest bounding box containing every pixel
with alpha > 0; a fully transparent buffer falls back to rgba[:1, :1]. -/
def trim_transparent (img : Img) : Img :=
  match alphaCols img, alphaRows img with
  | x :: xs, y :: ys =>
      let x0 := (x :: xs).foldl min x
      let x1 := (x :: xs).foldl max x
      let y0 := (y :: ys).foldl min y
      let y1 := (y :: ys).foldl max y
      subImg img x0 (x1 + 1) y0 (y1 + 1)
  | _, _ => subImg img 0 (min 1 img.W) 0 (min 1 img.H)

/-- Chebyshev distance max(|R-keyR|, |G-keyG|, |B-keyB|) over the three color
channels (the source computes it in int16, which is exact for 8-bit inputs). -/
def chebDist (p : Pixel) (key : ℕ × ℕ × ℕ) : ℕ :=
  max (((p.1 : ℤ) - (key.1 : ℤ)).natAbs)
    (max (((p.2.1 : ℤ) - (key.2.1 : ℤ)).natAbs)
      (((p.2.2.1 : ℤ) - (key.2.2 : ℤ)).natAbs))

/-- build_alpha_mask_by_color_key: binary mask that is 0 where the Chebyshev
distance to the key is within tolerance and 255 elsewhere; when
feather_radius > 0 the mask is post-processed by the image library's Gaussian
blur, which is the external collaborator `blur`. -/
def build_alpha_mask_by_color_key (img : Img) (key_rgb : ℕ × ℕ × ℕ)
    (tolerance : ℕ) (feather_radius : ℕ)
    (blur : ℕ → (ℕ → ℕ → ℕ) → (ℕ → ℕ → ℕ)) : ℕ → ℕ → ℕ :=
  let mask := fun x y =>
    if chebDist (img.pix x y) key_rgb ≤ tolerance then 0 else 255
  if 0 < feather_radius then blur feather_radius mask else mask

/-- apply_alpha_mask: returns a fresh copy of the buffer (out = rgba.copy())
whose alpha channel is (a.uint16 * m.uint16) // 255 cast back to uint8; the
uint16 product wraps at 2^16 and the final cast wraps at 2^8. -/
def apply_alpha_mask (img : Img) (alpha_mask : ℕ → ℕ → ℕ) : Img :=
  { img with pix := fun x y =>
      let p := img.pix x y
      (p.1, p.2.1, p.2.2.1, p.2.2.2 * alpha_mask x y % 65536 / 255 % 256) }

/-! ### Masking session state (MainWindow.rebuild_mask / clear_mask) -/

/-- The slice of MainWindow state involved in masking: the original decoded
image, the displayed preview, the picked background key, the cached mask and
the mask parameter widgets (tolerance slider, feather spinbox, AA checkbox). -/
structure Session where
  orig_qimg : Option Img
  preview_qimg : Option Img
  bg_key : Option (ℕ × ℕ × ℕ)
  alpha_mask : Option (ℕ → ℕ → ℕ)
  tol : ℕ
  feather : ℕ
  aa : Bool

/-- rebuild_mask (lines 1105-1123): no-op without an image; with no background
key the preview becomes the original buffer unchanged; otherwise the mask is
rebuilt (feather forced to 0 when AA is off) and applied to a fresh copy of
the original. -/
def rebuild_mask (blur : ℕ → (ℕ → ℕ → ℕ) → (ℕ → ℕ → ℕ)) (s : Session) :
    Session :=
  match s.orig_qimg with
  | none => s
  | some o =>
    match s.bg_key with
    | none => { s with preview_qimg := some o }
    | some k =>
      let feather := if s.aa then s.feather else 0
      let mask := build_alpha_mask_by_color_key o k s.tol feather blur
      { s with alpha_mask := some mask,
               preview_qimg := some (apply_alpha_mask o mask) }

/-- clear_mask (lines 1125-1130): drop the key and the cached mask; if an image
is loaded the preview reverts to the original buffer. -/
def clear_mask (s : Session) : Session :=
  let s1 : Session := { s with bg_key := none, alpha_mask := none }
  match s1.orig_qimg with
  | none => s1
  | some o => { s1 with preview_qimg := some o }

/-! ### Grid partition (export_slices lines 1167-1168) -/

/-- The boundary coordinate list used by export_slices on one axis:
[0] + sorted(set([v for v in lines if 0 < v < dim])) + [dim]. -/
def slice_coords (lines : List ℤ) (dim : ℤ) : List ℤ :=
  0 :: (((lines.filter fun v => decide (0 < v ∧ v < dim)).dedup.insertionSort
    (· ≤ ·)) ++ [dim])

/-- Point p lies in the i-th segment of the boundary list bs, that is
bs[i] ≤ p < bs[i+1] (with both indices in range). -/
def cell_bounds (bs : List ℤ) (i : ℕ) (p : ℤ) : Prop :=
  i + 1 < bs.length ∧ bs.getD i 0 ≤ p ∧ p < bs.getD (i + 1) 0

instance (bs : List ℤ) (i : ℕ) (p : ℤ) : Decidable (cell_bounds bs i p) := by
  unfold cell_bounds; infer_instance

/-! ### Resizing (dimension level) -/

/-- Python's built-in round(): round half to even. -/
def pyRound (q : ℚ) : ℤ :=
  if q - ⌊q⌋ < 1 / 2 then ⌊q⌋
  else if 1 / 2 < q - ⌊q⌋ then ⌊q⌋ + 1
  else if ⌊q⌋ % 2 = 0 then ⌊q⌋ else ⌊q⌋ + 1

/-- limit_size_keep_aspect (lines 53-66), tracked at the level of the buffer
dimensions (w, h): no change when max_px <= 0 or when the longest side already
fits; otherwise both sides are scaled by max_px / max(h, w) with Python
round() and a floor of 1. The LANCZOS resample that produces the pixels is the
image library collaborator. -/
def limit_size_keep_aspect (w h max_px : ℕ) : ℕ × ℕ :=
  if max_px ≤ 0 then (w, h)
  else
    let m := max h w
    if m ≤ max_px then (w, h)
    else
      let scale : ℚ := (max_px : ℚ) / (m : ℚ)
      (max 1 (pyRound ((w : ℚ) * scale)).toNat,
       max 1 (pyRound ((h : ℚ) * scale)).toNat)

/-- resize_by_scale (lines 69-77), dimensions only: identity at scale 1.0,
otherwise each side becomes max(1, int(side * scale)); Python int() truncates,
which is the floor for the nonnegative values that occur here. This is the
exact-rational idealization of the arithmetic; resize_by_scale_float below
models the double-precision evaluation the interpreter actually performs. -/
def resize_by_scale (w h : ℕ) (scale : ℚ) : ℕ × ℕ :=
  if scale = 1 then (w, h)
  else (max 1 (Int.toNat ⌊(w : ℚ) * scale⌋), max 1 (Int.toNat ⌊(h : ℚ) * scale⌋))

/-- resize_by_scale as executed on IEEE doubles. The program forms
scale = available / max_side and side * scale in double precision, so the
value handed to the truncating int() differs from the exact rational product
by the combined rounding error of the division and the multiplication. For
the magnitudes in range (sides and limits at most 2048) that combined error
is below 1e-12, far below one unit; it is modelled by explicit perturbation
terms ew, eh constrained (in the theorems) only to have magnitude below 1,
which over-approximates every double-precision evaluation. The identity
short-circuit at scale == 1.0 mirrors the source and is exact (no product is
formed). resize_by_scale is the zero-perturbation instance. -/
def resize_by_scale_float (w h : ℕ) (scale : ℚ) (ew eh : ℚ) : ℕ × ℕ :=
  if scale = 1 then (w, h)
  else (max 1 (Int.toNat ⌊(w : ℚ) * scale + ew⌋),
        max 1 (Int.toNat ⌊(h : ℚ) * scale + eh⌋))

/-- pad_image_center (lines 80-104), dimensions only: the output buffer always
has exactly the target dimensions. -/
def pad_image_center (_wh : ℕ × ℕ) (target_w target_h : ℕ) : ℕ × ℕ :=
  (target_w, target_h)

/-! ### Cell export pipeline (export_slices, lines 1146-1295) -/

/-- Python str.strip(): remove leading and trailing whitespace characters. -/
def pyStrip (s : String) : String :=
  String.mk
    (((s.data.dropWhile Char.isWhitespace).reverse.dropWhile
      Char.isWhitespace).reverse)

/-- The ExportOptions dataclass (lines 445-451). -/
structure ExportOptions where
  fmt : String
  trim : Bool
  limit_px : ℕ
  padding : ℕ
  auto_scale : Bool

/-- Row-major traversal order of the cell grid: (r, c) for r in
range(len(ys)-1) and c in range(len(xs)-1). -/
def cellIndices (xs ys : List ℤ) : List (ℕ × ℕ) :=
  (List.range (ys.length - 1)).flatMap fun r =>
    (List.range (xs.length - 1)).map fun c => (r, c)

/-- The sub-buffer of cell (r, c): rgba_full[ys[r]:ys[r+1], xs[c]:xs[c+1]]. -/
def cellBuf (img : Img) (xs ys : List ℤ) (rc : ℕ × ℕ) : Img :=
  subImg img (xs.getD rc.2 0).toNat (xs.getD (rc.2 + 1) 0).toNat
    (ys.getD rc.1 0).toNat (ys.getD (rc.1 + 1) 0).toNat

/-- The auto-scale pre-pass (lines 1174-1202): scan all cells in row-major
order, skipping degenerate, ignored and fully transparent (after optional
trim) cells, and keep the (trimmed) dimensions of the first cell attaining the
largest pixel area. Returns (max_area, max_w, max_h), starting from
(-1, 0, 0). The ignored set is a duplicate-free list, matching the Python
set object. -/
def pre_scan (img : Img) (xs ys : List ℤ) (ignored : List (ℤ × ℤ))
    (trim : Bool) : ℤ × ℕ × ℕ :=
  (cellIndices xs ys).foldl
    (fun acc rc =>
      if xs.getD (rc.2 + 1) 0 ≤ xs.getD rc.2 0 ∨
          ys.getD (rc.1 + 1) 0 ≤ ys.getD rc.1 0 then acc
      else if ((rc.1 : ℤ), (rc.2 : ℤ)) ∈ ignored then acc
      else
        let cell := cellBuf img xs ys rc
        if allTransparent cell then acc
        else
          let cell2 := if trim then trim_transparent cell else cell
          if trim ∧ allTransparent cell2 then acc
          else
            let area : ℤ := (cell2.W : ℤ) * (cell2.H : ℤ)
            if acc.1 < area then (area, cell2.W, cell2.H) else acc)
    (-1, 0, 0)

/-- Derivation of ref_scale_factor from the pre-pass result (lines 1204-1212):
with a positive max area the factor is
min(available / max_w, available / max_h) for
available = max(1, limit_px - padding * 2); a non-positive candidate falls
back to 1.0. -/
def ref_scale_factor_calc (limit_px padding : ℕ) (pre : ℤ × ℕ × ℕ) : ℚ :=
  let r : ℚ :=
    if 0 < pre.1 then
      let available : ℚ := ((max 1 (limit_px - padding * 2) : ℕ) : ℚ)
      min (available / (pre.2.1 : ℚ)) (available / (pre.2.2 : ℚ))
    else -1
  if r ≤ 0 then 1 else r

/-- One iteration of the export loop (lines 1217-1262) up to the
stem-determination step: `none` when the cell is skipped (degenerate, ignored,
fully transparent, or transparent after trim); `some (some base, w, h)` when
the cell carries a non-empty assigned name (stripped); `some (none, w, h)`
when it will receive an auto-generated stem. (w, h) are the dimensions of the
final buffer that is written. -/
def cell_fate (img : Img) (xs ys : List ℤ)
    (cell_data : List ((ℤ × ℤ) × String)) (ignored : List (ℤ × ℤ))
    (opts : ExportOptions) (ref_scale_factor : ℚ) (rc : ℕ × ℕ) :
    Option (Option String × ℕ × ℕ) :=
  if xs.getD (rc.2 + 1) 0 ≤ xs.getD rc.2 0 ∨
      ys.getD (rc.1 + 1) 0 ≤ ys.getD rc.1 0 then none
  else if ((rc.1 : ℤ), (rc.2 : ℤ)) ∈ ignored then none
  else
    let cell := cellBuf img xs ys rc
    if allTransparent cell then none
    else
      let cell2 := if opts.trim then trim_transparent cell else cell
      if opts.trim ∧ allTransparent cell2 then none
      else
        let dims :=
          if 0 < opts.limit_px then
            let content_dim := max 1 (opts.limit_px - opts.padding * 2)
            let resized :=
              if opts.auto_scale ∧ 0 < ref_scale_factor then
                resize_by_scale cell2.W cell2.H ref_scale_factor
              else limit_size_keep_aspect cell2.W cell2.H content_dim
            pad_image_center resized opts.limit_px opts.limit_px
          else if 0 < opts.padding then
            (cell2.W + opts.padding * 2, cell2.H + opts.padding * 2)
          else (cell2.W, cell2.H)
        let base :=
          match cell_data.lookup ((rc.1 : ℤ), (rc.2 : ℤ)) with
          | some nm => if pyStrip nm = "" then none else some (pyStrip nm)
          | none => none
        some (base, dims.1, dims.2)

/-- Left-pad the decimal representation of n with zeros to width k
(Python format spec 0kd). -/
def zfill (k n : ℕ) : String :=
  String.mk (List.replicate (k - (toString n).length) '0') ++ toString n

/-- The auto-generated stem pattern icon_idx(03d)_r(02d)_c(02d). -/
def auto_name (idx r c : ℕ) : String :=
  "icon_" ++ zfill 3 idx ++ "_r" ++ zfill 2 r ++ "_c" ++ zfill 2 c

/-- The save loop of export_slices (lines 1217-1288) over the row-major cell
list: skipped cells produce nothing; a cell with an assigned name uses it as
stem; an unnamed cell increments the pipeline-wide counter idx and uses the
auto-generated stem. Each produced entry is (filename, final width, final
height). -/
def export_loop (fate : ℕ × ℕ → Option (Option String × ℕ × ℕ)) (ext : String) :
    List (ℕ × ℕ) → ℕ → List (String × ℕ × ℕ)
  | [], _ => []
  | rc :: rest, idx =>
    match fate rc with
    | none => export_loop fate ext rest idx
    | some (some base, w, h) => (base ++ ext, w, h) :: export_loop fate ext rest idx
    | some (none, w, h) =>
        (auto_name (idx + 1) rc.1 rc.2 ++ ext, w, h) ::
          export_loop fate ext rest (idx + 1)

/-- export_slices: build the partition, run the auto-scale pre-pass when
enabled, then process every cell in row-major order. Only the png and ico
format branches write files. Returns the list of written files as
(filename, final width, final height); pixel encoding is the image library
collaborator. -/
def export_slices (img : Img) (x_lines y_lines : List ℤ)
    (cell_data : List ((ℤ × ℤ) × String)) (ignored : List (ℤ × ℤ))
    (opts : ExportOptions) : List (String × ℕ × ℕ) :=
  let xs := slice_coords x_lines (img.W : ℤ)
  let ys := slice_coords y_lines (img.H : ℤ)
  let ref : ℚ :=
    if opts.auto_scale ∧ 0 < opts.limit_px then
      ref_scale_factor_calc opts.limit_px opts.padding
        (pre_scan img xs ys ignored opts.trim)
    else -1
  let fate := cell_fate img xs ys cell_data ignored opts ref
  if opts.fmt = "png" then export_loop fate ".png" (cellIndices xs ys) 0
  else if opts.fmt = "ico" then export_loop fate ".ico" (cellIndices xs ys) 0
  else []

/-- Is this cell going to receive an auto-generated stem (exported and
unnamed)? Used to phrase the closed form of the naming counter. -/
def is_auto (fate : ℕ × ℕ → Option (Option String × ℕ × ℕ)) (rc : ℕ × ℕ) :
    Bool :=
  match fate rc with
  | some (none, _, _) => true
  | _ => false

/-- Number of auto-named cells among the first i cells of the traversal. -/
def auto_before (fate : ℕ × ℕ → Option (Option String × ℕ × ℕ))
    (l : List (ℕ × ℕ)) (i : ℕ) : ℕ :=
  ((l.take i).filter (is_auto fate)).length

/-! ### Draggable grid-line state (lines 907-984) -/

/-- The two divider lists of the grid editor. -/
structure GridState where
  x_lines : List ℤ
  y_lines : List ℤ

/-- add_x_line / add_y_line (lines 907-925) on one axis: clamp into
[0, dim], no-op when already present, else append and sort. -/
def add_line (dim : ℕ) (v : ℤ) (l : List ℤ) : List ℤ :=
  let x := clamp v 0 (dim : ℤ)
  if x ∈ l then l else (l ++ [x]).insertionSort (· ≤ ·)

/-- on_line_moved (lines 951-968): remove the old value if present, then
append the new value if absent — deliberately without sorting (the sort
happens on release). -/
def move_line (old new : ℤ) (l : List ℤ) : List ℤ :=
  let l1 := if old ∈ l then l.erase old else l
  if new ∈ l1 then l1 else l1 ++ [new]

/-- remove_nearest_line (lines 927-934) on one axis: find the first divider
minimizing |v - pos| and remove it if that distance is at most 15. -/
def remove_nearest (pos : ℤ) (l : List ℤ) : List ℤ :=
  match l with
  | [] => l
  | x :: xs =>
    let nearest := xs.foldl
      (fun b v => if (v - pos).natAbs < (b - pos).natAbs then v else b) x
    if (nearest - pos).natAbs ≤ 15 then l.erase nearest else l

/-- on_line_remove (lines 977-984) on one axis: remove the value if present. -/
def remove_line (v : ℤ) (l : List ℤ) : List ℤ :=
  if v ∈ l then l.erase v else l

/-- on_line_release (lines 971-974), the commit that ends a drag: sort both
divider lists. -/
def on_line_release (s : GridState) : GridState :=
  ⟨s.x_lines.insertionSort (· ≤ ·), s.y_lines.insertionSort (· ≤ ·)⟩

/-- The interactive divider-editing operations reachable from the UI. -/
inductive GridOp where
  | addX (x : ℤ)
  | addY (y : ℤ)
  | moveX (old new : ℤ)
  | moveY (old new : ℤ)
  | removeNearestX (pos : ℤ)
  | removeNearestY (pos : ℤ)
  | removeX (v : ℤ)
  | removeY (v : ℤ)
  | release
  | clearGrid

/-- Apply one editing operation to the grid state (W, H are the image
dimensions used for clamping). -/
def applyOp (W H : ℕ) (s : GridState) : GridOp → GridState
  | GridOp.addX x => { s with x_lines := add_line W x s.x_lines }
  | GridOp.addY y => { s with y_lines := add_line H y s.y_lines }
  | GridOp.moveX old new => { s with x_lines := move_line old new s.x_lines }
  | GridOp.moveY old new => { s with y_lines := move_line old new s.y_lines }
  | GridOp.removeNearestX pos =>
      { s with x_lines := remove_nearest pos s.x_lines }
  | GridOp.removeNearestY pos =>
      { s with y_lines := remove_nearest pos s.y_lines }
  | GridOp.removeX v => { s with x_lines := remove_line v s.x_lines }
  | GridOp.removeY v => { s with y_lines := remove_line v s.y_lines }
  | GridOp.release => on_line_release s
  | GridOp.clearGrid => ⟨[], []⟩

/-- Apply a sequence of editing operations from left to right. -/
def applyOps (W H : ℕ) (s : GridState) (ops : List GridOp) : GridState :=
  ops.foldl (applyOp W H) s

/-! ### Sidecar persistence (save_grid_data / load_grid_data, lines 809-894) -/

/-- The application state touched by persistence: divider lists, cell names,
ignored cells, the optional ref_cell restored by older files, mask parameters
and the export option widgets. -/
structure AppState where
  x_lines : List ℤ
  y_lines : List ℤ
  cell_data : List ((ℤ × ℤ) × String)
  ignored_cells : List (ℤ × ℤ)
  ref_cell : Option (List ℤ)
  bg_key : Option (ℤ × ℤ × ℤ)
  tol : ℕ
  feather : ℕ
  aa : Bool
  trim : Bool
  limit_px : ℕ
  padding : ℕ
  fmt : String
  auto_scale : Bool
deriving DecidableEq

/-- The state of a fresh session: empty grid model and the widget defaults
(tol 16, feather 3, AA on, trim on, limit 256, padding 0, png, auto-scale
on). -/
def initState : AppState :=
  ⟨[], [], [], [], none, none, 16, 3, true, true, 256, 0, "png", true⟩

/-- Python set.add: insert the element when absent (the set is modelled as a
duplicate-free list). -/
def set_add (l : List (ℤ × ℤ)) (p : ℤ × ℤ) : List (ℤ × ℤ) :=
  if p ∈ l then l else l ++ [p]

/-- The parsed content of a well-formed sidecar file, as written by
save_grid_data: divider lists, the cells mapping (its JSON keys are the
strings "r,c", which encode exactly the integer pair used here), the five
export options, the mask block (absent when no key is set) and the ignored
list (absent when empty). -/
structure GridFile where
  x_lines : List ℤ
  y_lines : List ℤ
  cells : List ((ℤ × ℤ) × String)
  opt_trim : Bool
  opt_limit_px : ℕ
  opt_padding : ℕ
  opt_fmt : String
  opt_auto_scale : Bool
  mask : Option ((ℤ × ℤ × ℤ) × ℕ × ℕ × Bool)
  ignored : Option (List (ℤ × ℤ))
deriving DecidableEq

/-- save_grid_data (lines 858-894): write dividers, cells and options always;
the mask block only when a background key is set (a picked key is a 3-tuple
and hence truthy); the ignored list only when non-empty. -/
def save_grid_data (s : AppState) : GridFile :=
  { x_lines := s.x_lines
    y_lines := s.y_lines
    cells := s.cell_data
    opt_trim := s.trim
    opt_limit_px := s.limit_px
    opt_padding := s.padding
    opt_fmt := s.fmt
    opt_auto_scale := s.auto_scale
    mask := s.bg_key.map fun k => (k, s.tol, s.feather, s.aa)
    ignored := if s.ignored_cells = [] then none else some s.ignored_cells }

/-- Python dict assignment d[k] = v: overwrite in place when the key exists,
else append at the end. -/
def dictInsert (m : List ((ℤ × ℤ) × String)) (k : ℤ × ℤ) (v : String) :
    List ((ℤ × ℤ) × String) :=
  if (m.lookup k).isSome then m.map fun kv => if kv.1 = k then (k, v) else kv
  else m ++ [(k, v)]

/-- load_grid_data (lines 809-856) applied to a successfully parsed,
well-typed sidecar record (the exception path over raw JSON is modelled
separately by load_grid_json below): divider lists are re-sorted; cells are
inserted one by one; options are restored through their widgets, whose
setValue clamps to the widget ranges (limit 0-2048, padding 0-512) and whose
format combo ignores unknown entries; the mask block restores key, tolerance
(slider 0-80) and feather (spinbox 0-12) but not the AA checkbox; the ignored
entries are added to the current set. -/
def load_grid_data (f : GridFile) (s : AppState) : AppState :=
  let s1 := { s with x_lines := f.x_lines.insertionSort (· ≤ ·),
                     y_lines := f.y_lines.insertionSort (· ≤ ·) }
  let s2 := { s1 with
    cell_data := f.cells.foldl
      (fun m (kv : (ℤ × ℤ) × String) => dictInsert m kv.1 kv.2) s1.cell_data }
  let s3 := { s2 with
    trim := f.opt_trim
    limit_px := min 2048 f.opt_limit_px
    padding := min 512 f.opt_padding
    auto_scale := f.opt_auto_scale }
  let s4 := if f.opt_fmt = "png" ∨ f.opt_fmt = "ico" then
      { s3 with fmt := f.opt_fmt } else s3
  let s5 :=
    match f.mask with
    | some (k, t, fe, _) =>
        { s4 with bg_key := some k, tol := min 80 t, feather := min 12 fe }
    | none => s4
  match f.ignored with
  | some l => { s5 with ignored_cells := l.foldl set_add s5.ignored_cells }
  | none => s5

/-! ### Raw-JSON load with Python exception semantics (load_grid_data's
try/except, for malformed sidecar files) -/

/-- Minimal JSON values as produced by json.load. -/
inductive Json where
  | null
  | jbool (b : Bool)
  | num (n : ℤ)
  | str (s : String)
  | arr (items : List Json)
  | obj (fields : List (String × Json))

/-- data.get(k, default): raises (modelled as error) when the parsed document
is not a JSON object at all. -/
def jget (d : Json) (k : String) (dflt : Json) : Except Unit Json :=
  match d with
  | Json.obj fields => Except.ok ((fields.lookup k).getD dflt)
  | _ => Except.error ()

/-- A JSON array of integers, the only shape sorted() accepts into the
divider lists. -/
def asIntList : Json → Option (List ℤ)
  | Json.arr items =>
      items.mapM fun j => match j with | Json.num n => some n | _ => none
  | _ => none

/-- self.x_lines = sorted(data.get("x_lines", [])). -/
def step_x_lines (d : Json) (s : AppState) : Except Unit AppState :=
  match jget d "x_lines" (Json.arr []) with
  | Except.error _ => Except.error ()
  | Except.ok j =>
    match asIntList j with
    | some ns => Except.ok { s with x_lines := ns.insertionSort (· ≤ ·) }
    | none => Except.error ()

/-- self.y_lines = sorted(data.get("y_lines", [])). -/
def step_y_lines (d : Json) (s : AppState) : Except Unit AppState :=
  match jget d "y_lines" (Json.arr []) with
  | Except.error _ => Except.error ()
  | Except.ok j =>
    match asIntList j with
    | some ns => Except.ok { s with y_lines := ns.insertionSort (· ≤ ·) }
    | none => Except.error ()

/-- Parse a "r,c" cell key. -/
def parse_rc (k : String) : Option (ℤ × ℤ) :=
  match k.splitOn "," with
  | [a, b] =>
    match a.toInt?, b.toInt? with
    | some r, some c => some (r, c)
    | _, _ => none
  | _ => none

/-- The cells loop: .items() raises on a non-dict; each entry sits in its own
try/except, so malformed entries are silently skipped. -/
def step_cells (d : Json) (s : AppState) : Except Unit AppState :=
  match jget d "cells" (Json.obj []) with
  | Except.error _ => Except.error ()
  | Except.ok (Json.obj kvs) =>
      Except.ok (kvs.foldl
        (fun st kv =>
          match parse_rc kv.1, kv.2 with
          | some rc, Json.str v =>
              { st with cell_data := dictInsert st.cell_data rc v }
          | _, _ => st)
        s)
  | Except.ok _ => Except.error ()

/-- if "ref_cell" in data: self.ref_cell = tuple(data["ref_cell"]). -/
def step_ref_cell (d : Json) (s : AppState) : Except Unit AppState :=
  match d with
  | Json.obj fields =>
    match fields.lookup "ref_cell" with
    | none => Except.ok s
    | some j =>
      match asIntList j with
      | some ns => Except.ok { s with ref_cell := some ns }
      | none => Except.error ()
  | _ => Except.error ()

/-- The parsed "options" sub-object ({} when absent; non-dict values make the
subsequent `in` checks raise). -/
def jsub (d : Json) (k : String) : Except Unit (List (String × Json)) :=
  match jget d k (Json.obj []) with
  | Except.error _ => Except.error ()
  | Except.ok (Json.obj o) => Except.ok o
  | Except.ok _ => Except.error ()

/-- if "trim" in opts: self.chk_trim.setChecked(opts["trim"]). -/
def step_opt_trim (d : Json) (s : AppState) : Except Unit AppState :=
  match jsub d "options" with
  | Except.error _ => Except.error ()
  | Except.ok o =>
    match o.lookup "trim" with
    | none => Except.ok s
    | some (Json.jbool b) => Except.ok { s with trim := b }
    | some _ => Except.error ()

/-- if "limit_px" in opts: self.sp_limit.setValue(opts["limit_px"]); the
spinbox clamps into its 0-2048 range. -/
def step_opt_limit (d : Json) (s : AppState) : Except Unit AppState :=
  match jsub d "options" with
  | Except.error _ => Except.error ()
  | Except.ok o =>
    match o.lookup "limit_px" with
    | none => Except.ok s
    | some (Json.num n) =>
        Except.ok { s with limit_px := (clamp n 0 2048).toNat }
    | some _ => Except.error ()

/-- if "padding" in opts: self.sp_padding.setValue(opts["padding"]); the
spinbox clamps into its 0-512 range. -/
def step_opt_padding (d : Json) (s : AppState) : Except Unit AppState :=
  match jsub d "options" with
  | Except.error _ => Except.error ()
  | Except.ok o =>
    match o.lookup "padding" with
    | none => Except.ok s
    | some (Json.num n) =>
        Except.ok { s with padding := (clamp n 0 512).toNat }
    | some _ => Except.error ()

/-- if "fmt" in opts: select it in the format combo when present among its
items. -/
def step_opt_fmt (d : Json) (s : AppState) : Except Unit AppState :=
  match jsub d "options" with
  | Except.error _ => Except.error ()
  | Except.ok o =>
    match o.lookup "fmt" with
    | none => Except.ok s
    | some (Json.str v) =>
        Except.ok (if v = "png" ∨ v = "ico" then { s with fmt := v } else s)
    | some _ => Except.error ()

/-- if "use_ref" in opts: compat flag restored into the auto-scale checkbox. -/
def step_opt_use_ref (d : Json) (s : AppState) : Except Unit AppState :=
  match jsub d "options" with
  | Except.error _ => Except.error ()
  | Except.ok o =>
    match o.lookup "use_ref" with
    | none => Except.ok s
    | some (Json.jbool b) => Except.ok { s with auto_scale := b }
    | some _ => Except.error ()

/-- if "auto_scale" in opts: restored into the auto-scale checkbox. -/
def step_opt_auto_scale (d : Json) (s : AppState) : Except Unit AppState :=
  match jsub d "options" with
  | Except.error _ => Except.error ()
  | Except.ok o =>
    match o.lookup "auto_scale" with
    | none => Except.ok s
    | some (Json.jbool b) => Except.ok { s with auto_scale := b }
    | some _ => Except.error ()

/-- if "key" in mask_info: self.bg_key = tuple(mask_info["key"]). -/
def step_mask_key (d : Json) (s : AppState) : Except Unit AppState :=
  match jsub d "mask" with
  | Except.error _ => Except.error ()
  | Except.ok m =>
    match m.lookup "key" with
    | none => Except.ok s
    | some (Json.arr [Json.num r, Json.num g, Json.num b]) =>
        Except.ok { s with bg_key := some (r, g, b) }
    | some _ => Except.error ()

/-- Nested under the key check: if "tol" in mask_info: slider setValue
(clamped 0-80). -/
def step_mask_tol (d : Json) (s : AppState) : Except Unit AppState :=
  match jsub d "mask" with
  | Except.error _ => Except.error ()
  | Except.ok m =>
    match m.lookup "key" with
    | none => Except.ok s
    | some _ =>
      match m.lookup "tol" with
      | none => Except.ok s
      | some (Json.num n) => Except.ok { s with tol := (clamp n 0 80).toNat }
      | some _ => Except.error ()

/-- Nested under the key check: if "feather" in mask_info: spinbox setValue
(clamped 0-12). -/
def step_mask_feather (d : Json) (s : AppState) : Except Unit AppState :=
  match jsub d "mask" with
  | Except.error _ => Except.error ()
  | Except.ok m =>
    match m.lookup "key" with
    | none => Except.ok s
    | some _ =>
      match m.lookup "feather" with
      | none => Except.ok s
      | some (Json.num n) =>
          Except.ok { s with feather := (clamp n 0 12).toNat }
      | some _ => Except.error ()

/-- if "ignored" in data: for item in data["ignored"]: add tuple(item);
iterating a non-list raises, as does tuple() of a non-pair entry. -/
def step_ignored (d : Json) (s : AppState) : Except Unit AppState :=
  match d with
  | Json.obj fields =>
    match fields.lookup "ignored" with
    | none => Except.ok s
    | some (Json.arr items) =>
      match items.mapM (fun j =>
          match j with
          | Json.arr [Json.num a, Json.num b] => some ((a, b) : ℤ × ℤ)
          | _ => none) with
      | some ps =>
          Except.ok { s with ignored_cells := ps.foldl set_add s.ignored_cells }
      | none => Except.error ()
    | some _ => Except.error ()
  | _ => Except.error ()

/-- Run the statements of the try block in order; the first exception aborts
the rest and leaves every assignment already made in place. The Bool is true
when the whole block ran (false = the except branch reported a failure). -/
def run_steps (s : AppState) :
    List (AppState → Except Unit AppState) → AppState × Bool
  | [] => (s, true)
  | f :: fs =>
    match f s with
    | Except.error _ => (s, false)
    | Except.ok s2 => run_steps s2 fs

/-- The statements of load_grid_data's try block, in source order. -/
def load_steps (d : Json) : List (AppState → Except Unit AppState) :=
  [step_x_lines d, step_y_lines d, step_cells d, step_ref_cell d,
   step_opt_trim d, step_opt_limit d, step_opt_padding d, step_opt_fmt d,
   step_opt_use_ref d, step_opt_auto_scale d,
   step_mask_key d, step_mask_tol d, step_mask_feather d, step_ignored d]

/-- load_grid_data over a raw sidecar file: `none` models a file that cannot
be read or parsed (the exception fires before any assignment); otherwise the
try-block statements run in order with Python exception semantics. -/
def load_grid_json (content : Option Json) (s : AppState) : AppState × Bool :=
  match content with
  | none => (s, false)
  | some d => run_steps s (load_steps d)

end IconGrid

namespace IconGrid

/-! ## Helper lemmas -/

/-- A demonstration 1x1 opaque image used by witnesses. -/
def demoImg : Img := ⟨1, 1, fun _ _ => (0, 0, 0, 255)⟩

/-- A sample non-default configuration used by the persistence witness. -/
def sampleState : AppState :=
  { initState with
    x_lines := [3, 7]
    cell_data := [((0, 0), "a")]
    ignored_cells := [(1, 1)]
    bg_key := some (9, 8, 7)
    tol := 5
    feather := 2
    fmt := "ico"
    trim := false
    limit_px := 300
    padding := 4
    auto_scale := false }

theorem getD_eq_get (l : List ℤ) (n : ℕ) (h : n < l.length) :
    l.getD n 0 = l.get ⟨n, h⟩ := by
  rw [List.getD_eq_getElem?_getD, List.getElem?_eq_getElem h]
  simp

theorem sorted_getD_lt (l : List ℤ) (hs : l.Sorted (· < ·)) (i j : ℕ)
    (hij : i < j) (hj : j < l.length) : l.getD i 0 < l.getD j 0 := by
  have hi : i < l.length := lt_trans hij hj
  rw [getD_eq_get l i hi, getD_eq_get l j hj]
  exact hs.rel_get_of_lt hij

theorem sorted_getD_le (l : List ℤ) (hs : l.Sorted (· < ·)) (i j : ℕ)
    (hij : i ≤ j) (hj : j < l.length) : l.getD i 0 ≤ l.getD j 0 := by
  rcases Nat.lt_or_ge i j with h | h
  · exact le_of_lt (sorted_getD_lt l hs i j h hj)
  · have : i = j := le_antisymm hij h
    subst this; rfl

end IconGrid

namespace IconGrid

/-! ## C10: apply_alpha_mask only rewrites alpha -/

/-- C10: apply_alpha_mask returns a fresh buffer (the source copies the input
before writing, so the input array is never mutated) in which every pixel
keeps its R, G and B channels and the dimensions are unchanged; only the
alpha channel is recomputed. -/
theorem apply_alpha_mask_preserves_rgb (img : Img) (mask : ℕ → ℕ → ℕ)
    (x y : ℕ) :
    rgbOf ((apply_alpha_mask img mask).pix x y) = rgbOf (img.pix x y) ∧
    (apply_alpha_mask img mask).W = img.W ∧
    (apply_alpha_mask img mask).H = img.H :=
  ⟨rfl, rfl, rfl⟩

/-! ## C4: color-key mask formula -/

/-- C4: with a background key set, the mask is 0 exactly where the Chebyshev
distance over the color channels is within tolerance and 255 elsewhere, and
with feather radius 0 the masked pixel's alpha equals
round(original_alpha * mask_value / 255). -/
theorem mask_key_binary_and_alpha (img : Img) (key : ℕ × ℕ × ℕ) (tol : ℕ)
    (blur : ℕ → (ℕ → ℕ → ℕ) → (ℕ → ℕ → ℕ)) (x y : ℕ)
    (ha : alphaOf (img.pix x y) ≤ 255) :
    build_alpha_mask_by_color_key img key tol 0 blur x y =
      (if chebDist (img.pix x y) key ≤ tol then 0 else 255) ∧
    ((alphaOf ((apply_alpha_mask img
          (build_alpha_mask_by_color_key img key tol 0 blur)).pix x y) : ℤ) =
      round ((((alphaOf (img.pix x y) *
          build_alpha_mask_by_color_key img key tol 0 blur x y : ℕ)) : ℚ) /
        255)) := by
  have hmask : build_alpha_mask_by_color_key img key tol 0 blur x y =
      (if chebDist (img.pix x y) key ≤ tol then 0 else 255) := by
    simp [build_alpha_mask_by_color_key]
  refine ⟨hmask, ?_⟩
  set a := alphaOf (img.pix x y) with hadef
  have halpha : alphaOf ((apply_alpha_mask img
      (build_alpha_mask_by_color_key img key tol 0 blur)).pix x y) =
      a * build_alpha_mask_by_color_key img key tol 0 blur x y % 65536 / 255
        % 256 := rfl
  rw [halpha, hmask]
  by_cases hc : chebDist (img.pix x y) key ≤ tol
  · simp [hc]
  · simp only [hc, if_false]
    have h1 : a * 255 < 65536 := by omega
    rw [Nat.mod_eq_of_lt h1, Nat.mul_div_cancel a (by norm_num)]
    rw [Nat.mod_eq_of_lt (by omega : a < 256)]
    have : ((a * 255 : ℕ) : ℚ) / 255 = (a : ℚ) := by
      push_cast
      field_simp
    rw [this, round_natCast]

/-- Witness for C4: a concrete instantiation at the 1x1 opaque demo image
with key (0, 0, 0) and tolerance 0. -/
theorem mask_key_binary_and_alpha_witness :
    build_alpha_mask_by_color_key demoImg (0, 0, 0) 0 0 (fun _ m => m) 0 0 =
      (if chebDist (demoImg.pix 0 0) (0, 0, 0) ≤ 0 then 0 else 255) ∧
    ((alphaOf ((apply_alpha_mask demoImg
          (build_alpha_mask_by_color_key demoImg (0, 0, 0) 0 0
            (fun _ m => m))).pix 0 0) : ℤ) =
      round ((((alphaOf (demoImg.pix 0 0) *
          build_alpha_mask_by_color_key demoImg (0, 0, 0) 0 0
            (fun _ m => m) 0 0 : ℕ)) : ℚ) / 255)) :=
  mask_key_binary_and_alpha demoImg (0, 0, 0) 0 (fun _ m => m) 0 0 (by decide)

/-! ## C8: no-key mask application is the identity -/

/-- C8: with an image loaded, rebuilding the mask with no background key sets
the preview to the original buffer itself (byte-identical), and clearing the
mask restores the original buffer exactly, regardless of the tolerance and
feather settings; rebuilding after a clear keeps it the original. -/
theorem mask_no_key_identity (blur : ℕ → (ℕ → ℕ → ℕ) → (ℕ → ℕ → ℕ))
    (s : Session) (o : Img) (ho : s.orig_qimg = some o) :
    (s.bg_key = none → (rebuild_mask blur s).preview_qimg = some o) ∧
    (clear_mask s).preview_qimg = some o ∧
    (rebuild_mask blur (clear_mask s)).preview_qimg = some o := by
  refine ⟨fun hk => ?_, ?_, ?_⟩
  · simp [rebuild_mask, ho, hk]
  · simp [clear_mask, ho]
  · simp [rebuild_mask, clear_mask, ho]

/-- Witness for C8: concrete session holding the demo image and no key. -/
theorem mask_no_key_identity_witness :
    ((⟨some demoImg, none, none, none, 16, 3, true⟩ : Session).bg_key = none →
      (rebuild_mask (fun _ m => m)
        ⟨some demoImg, none, none, none, 16, 3, true⟩).preview_qimg =
        some demoImg) ∧
    (clear_mask
        (⟨some demoImg, none, none, none, 16, 3, true⟩ : Session)).preview_qimg =
      some demoImg ∧
    (rebuild_mask (fun _ m => m) (clear_mask
        ⟨some demoImg, none, none, none, 16, 3, true⟩)).preview_qimg =
      some demoImg :=
  mask_no_key_identity (fun _ m => m)
    ⟨some demoImg, none, none, none, 16, 3, true⟩ demoImg rfl

end IconGrid

namespace IconGrid

/-! ## C9: failed sidecar loads -/

/-- C9 counterexample: a sidecar whose x_lines parse but whose ignored field
is a number makes the load fail partway (reported, flag false), yet the
divider list has already been populated from the file — the state is not left
empty/default. -/
theorem load_partial_population_cx :
    load_grid_json (some (Json.obj [("x_lines", Json.arr [Json.num 10]),
        ("ignored", Json.num 5)])) initState =
      ({ initState with x_lines := [10] }, false) ∧
    ({ initState with x_lines := ([10] : List ℤ) } : AppState).x_lines ≠
      initState.x_lines := by
  exact ⟨rfl, by decide⟩

/-- C9 amended: a load failure is reported and never crashes (the model is a
total function returning a failure flag); when the file cannot even be read
or parsed, or when its very first assignment (x_lines) raises, the state is
left completely unchanged. Assignments that succeed before a later failing
statement persist, as the counterexample shows. -/
theorem load_failure_amended (s : AppState) (d : Json) :
    load_grid_json none s = (s, false) ∧
    (step_x_lines d s = Except.error () → load_grid_json (some d) s = (s, false)) := by
  refine ⟨rfl, fun h => ?_⟩
  simp [load_grid_json, load_steps, run_steps, h]

/-- Witness for C9's amended theorem: an unreadable file and a file whose
top-level JSON value is the number 3. -/
theorem load_failure_amended_witness :
    load_grid_json none initState = (initState, false) ∧
    load_grid_json (some (Json.num 3)) initState = (initState, false) :=
  ⟨(load_failure_amended initState (Json.num 3)).1,
   (load_failure_amended initState (Json.num 3)).2 rfl⟩

/-! ## C6: sidecar round trip -/

theorem lookup_eq_none_of_not_mem_keys (m : List ((ℤ × ℤ) × String))
    (k : ℤ × ℤ) (h : k ∉ m.map Prod.fst) : m.lookup k = none := by
  induction m with
  | nil => rfl
  | cons kv t ih =>
    obtain ⟨k1, v1⟩ := kv
    simp only [List.map_cons, List.mem_cons, not_or] at h
    have hbeq : (k == k1) = false := beq_eq_false_iff_ne.mpr h.1
    simp only [List.lookup, hbeq]
    exact ih h.2

theorem dict_foldl_eq_append (l : List ((ℤ × ℤ) × String)) :
    ∀ acc, (∀ kv ∈ l, kv.1 ∉ acc.map Prod.fst) → (l.map Prod.fst).Nodup →
      l.foldl (fun m kv => dictInsert m kv.1 kv.2) acc = acc ++ l := by
  induction l with
  | nil => intro acc _ _; simp
  | cons kv t ih =>
    intro acc hout hnd
    rw [List.foldl_cons]
    have h1 : acc.lookup kv.1 = none :=
      lookup_eq_none_of_not_mem_keys acc kv.1 (hout kv (by simp))
    have h2 : dictInsert acc kv.1 kv.2 = acc ++ [kv] := by
      simp [dictInsert, h1]
    have hnd' : kv.1 ∉ t.map Prod.fst ∧ (t.map Prod.fst).Nodup := by
      rw [List.map_cons, List.nodup_cons] at hnd
      exact hnd
    rw [h2, ih (acc ++ [kv]) ?_ ?_]
    · simp
    · intro kv' h'
      simp only [List.map_append, List.mem_append, not_or]
      refine ⟨hout kv' (List.mem_cons_of_mem _ h'), ?_⟩
      simp only [List.map_cons, List.map_nil, List.mem_singleton]
      intro hcontra
      exact hnd'.1 (hcontra ▸ List.mem_map_of_mem Prod.fst h')
    · exact hnd'.2

theorem foldl_set_add_eq_append (l : List (ℤ × ℤ)) :
    ∀ acc, (∀ p ∈ l, p ∉ acc) → l.Nodup →
      l.foldl set_add acc = acc ++ l := by
  induction l with
  | nil => intro acc _ _; simp
  | cons p t ih =>
    intro acc hout hnd
    rw [List.foldl_cons]
    have h2 : set_add acc p = acc ++ [p] := by
      simp [set_add, hout p (by simp)]
    rw [h2, ih (acc ++ [p]) ?_ ?_]
    · simp
    · intro p' h'
      simp only [List.mem_append, List.mem_singleton, not_or]
      refine ⟨hout p' (List.mem_cons_of_mem _ h'), ?_⟩
      intro hcontra
      exact (List.nodup_cons.mp hnd).1 (hcontra ▸ h')
    · exact (List.nodup_cons.mp hnd).2

/-- C6 counterexample: save writes the AA checkbox into the mask block but
load never restores it, so saving a configuration with a background key and
AA off and reloading it in a fresh session does not reproduce the antialias
flag. -/
theorem persistence_aa_cx :
    (load_grid_data (save_grid_data
        { initState with bg_key := some (1, 2, 3), aa := false })
      initState).aa ≠
      ({ initState with bg_key := some (1, 2, 3), aa := false } : AppState).aa := by
  decide

/-- C6 amended: for every configuration satisfying the widget/data-model
invariants (sorted divider lists, dict-unique cell keys, duplicate-free
ignored set, format from the combo, widget values within their ranges),
saving and reloading into a fresh session reproduces the divider lists, cell
names, ignored set, background key and export options exactly; tolerance and
feather are reproduced when a key is set and fall back to the defaults 16/3
when not; the antialias flag is never restored (it keeps the fresh-session
default true). -/
theorem persistence_round_trip (s : AppState)
    (hx : s.x_lines.Sorted (· ≤ ·)) (hy : s.y_lines.Sorted (· ≤ ·))
    (hkeys : (s.cell_data.map Prod.fst).Nodup) (hign : s.ignored_cells.Nodup)
    (hfmt : s.fmt = "png" ∨ s.fmt = "ico")
    (hlim : s.limit_px ≤ 2048) (hpad : s.padding ≤ 512)
    (htol : s.tol ≤ 80) (hfea : s.feather ≤ 12) :
    (load_grid_data (save_grid_data s) initState).x_lines = s.x_lines ∧
    (load_grid_data (save_grid_data s) initState).y_lines = s.y_lines ∧
    (load_grid_data (save_grid_data s) initState).cell_data = s.cell_data ∧
    (load_grid_data (save_grid_data s) initState).ignored_cells =
      s.ignored_cells ∧
    (load_grid_data (save_grid_data s) initState).bg_key = s.bg_key ∧
    (s.bg_key ≠ none →
      (load_grid_data (save_grid_data s) initState).tol = s.tol ∧
      (load_grid_data (save_grid_data s) initState).feather = s.feather) ∧
    (s.bg_key = none →
      (load_grid_data (save_grid_data s) initState).tol = 16 ∧
      (load_grid_data (save_grid_data s) initState).feather = 3) ∧
    (load_grid_data (save_grid_data s) initState).aa = true ∧
    (load_grid_data (save_grid_data s) initState).trim = s.trim ∧
    (load_grid_data (save_grid_data s) initState).limit_px = s.limit_px ∧
    (load_grid_data (save_grid_data s) initState).padding = s.padding ∧
    (load_grid_data (save_grid_data s) initState).fmt = s.fmt ∧
    (load_grid_data (save_grid_data s) initState).auto_scale = s.auto_scale := by
  have hcells : (save_grid_data s).cells.foldl
      (fun m (kv : (ℤ × ℤ) × String) => dictInsert m kv.1 kv.2)
      (initState.cell_data) = s.cell_data := by
    have := dict_foldl_eq_append s.cell_data [] (by simp) hkeys
    simpa [save_grid_data, initState] using this
  have hxs : (save_grid_data s).x_lines.insertionSort (· ≤ ·) = s.x_lines := by
    simpa [save_grid_data] using hx.insertionSort_eq
  have hys : (save_grid_data s).y_lines.insertionSort (· ≤ ·) = s.y_lines := by
    simpa [save_grid_data] using hy.insertionSort_eq
  have hifold : s.ignored_cells.foldl set_add [] = s.ignored_cells := by
    simpa using foldl_set_add_eq_append s.ignored_cells [] (by simp) hign
  rcases hb : s.bg_key with _ | k <;>
    by_cases he : s.ignored_cells = [] <;>
      simp_all [load_grid_data, save_grid_data, initState,
        min_eq_right hlim, min_eq_right hpad, min_eq_right htol,
        min_eq_right hfea]

/-- Witness for C6's amended round-trip theorem: a concrete configuration
with two dividers, a named cell, an ignored cell, a background key and
non-default options. -/
theorem persistence_round_trip_witness :
    (load_grid_data (save_grid_data sampleState) initState).x_lines =
      sampleState.x_lines ∧
    (load_grid_data (save_grid_data sampleState) initState).tol =
      sampleState.tol := by
  have h := persistence_round_trip sampleState
    (by decide) (by decide) (by decide) (by decide)
    (by simp [sampleState, initState])
    (by decide) (by decide) (by decide) (by decide)
  exact ⟨h.1, (h.2.2.2.2.2.1 (by simp [sampleState, initState])).1⟩

end IconGrid

namespace IconGrid

/-! ## C7: independent-mode size limiting -/

theorem pyRound_intCast (n : ℤ) : pyRound (n : ℚ) = n := by
  unfold pyRound
  rw [Int.floor_intCast]
  norm_num

theorem pyRound_le_of_le (q : ℚ) (n : ℤ) (h : q ≤ (n : ℚ)) : pyRound q ≤ n := by
  have hfl : ⌊q⌋ ≤ n := by
    rw [← Int.floor_intCast (α := ℚ) n]
    exact Int.floor_mono h
  have hfl2 : (⌊q⌋ : ℚ) ≤ q := Int.floor_le q
  have hlt : 1 / 2 ≤ q - ⌊q⌋ → ⌊q⌋ < n := by
    intro hh
    rcases lt_or_eq_of_le hfl with h' | h'
    · exact h'
    · exfalso
      have hc : ((⌊q⌋ : ℤ) : ℚ) = (n : ℚ) := by exact_mod_cast h'
      linarith
  unfold pyRound
  split_ifs with h1 h2 h3
  · exact hfl
  · have := hlt (le_of_lt h2); omega
  · exact hfl
  · have := hlt (le_of_not_lt h1); omega

theorem limit_fit_eq (w h max_px : ℕ) (h0 : ¬ max_px ≤ 0)
    (h1 : ¬ max h w ≤ max_px) :
    limit_size_keep_aspect w h max_px =
      (max 1 (pyRound ((w : ℚ) * ((max_px : ℚ) / ((max h w : ℕ) : ℚ)))).toNat,
       max 1 (pyRound ((h : ℚ) * ((max_px : ℚ) / ((max h w : ℕ) : ℚ)))).toNat) := by
  rw [limit_size_keep_aspect, if_neg h0]
  exact if_neg h1

/-- C7 amended: in independent mode a cell is left unchanged when its longest
side already fits within the content target, and is scaled (per-cell, from
its own dimensions alone) so that its longest side equals the target exactly
when it exceeds it. Cells smaller than the target are not upscaled. -/
theorem limit_fit_amended (w h max_px : ℕ) (_hw : 1 ≤ w) (hh : 1 ≤ h) :
    (max h w ≤ max_px → limit_size_keep_aspect w h max_px = (w, h)) ∧
    (0 < max_px → max_px < max h w →
      max (limit_size_keep_aspect w h max_px).1
        (limit_size_keep_aspect w h max_px).2 = max_px) := by
  constructor
  · intro hm
    rw [limit_size_keep_aspect]
    split_ifs with h1
    · rfl
    · exact if_pos hm
  · intro h0 hlt
    rw [limit_fit_eq w h max_px (by omega) (by omega)]
    have hm0 : 0 < max h w := by omega
    have hmq : ((max h w : ℕ) : ℚ) ≠ 0 := Nat.cast_ne_zero.mpr (by omega)
    have hcast : ((max_px : ℕ) : ℚ) = ((max_px : ℤ) : ℚ) := by push_cast; rfl
    have hexact : ((max h w : ℕ) : ℚ) * ((max_px : ℚ) / ((max h w : ℕ) : ℚ)) =
        (max_px : ℚ) := mul_div_cancel₀ _ hmq
    have hround_m :
        pyRound (((max h w : ℕ) : ℚ) * ((max_px : ℚ) / ((max h w : ℕ) : ℚ))) =
        (max_px : ℤ) := by
      rw [hexact, hcast, pyRound_intCast]
    have hside : ∀ u : ℕ, u ≤ max h w →
        (max 1 (pyRound ((u : ℚ) *
          ((max_px : ℚ) / ((max h w : ℕ) : ℚ)))).toNat) ≤ max_px := by
      intro u hu
      have harg : (u : ℚ) * ((max_px : ℚ) / ((max h w : ℕ) : ℚ)) ≤
          (max_px : ℚ) := by
        calc (u : ℚ) * ((max_px : ℚ) / ((max h w : ℕ) : ℚ)) ≤
            ((max h w : ℕ) : ℚ) * ((max_px : ℚ) / ((max h w : ℕ) : ℚ)) := by
              apply mul_le_mul_of_nonneg_right
              · exact_mod_cast hu
              · positivity
          _ = (max_px : ℚ) := hexact
      have hp : pyRound ((u : ℚ) * ((max_px : ℚ) / ((max h w : ℕ) : ℚ))) ≤
          (max_px : ℤ) := pyRound_le_of_le _ _ (hcast ▸ harg)
      have h3 : (pyRound ((u : ℚ) *
          ((max_px : ℚ) / ((max h w : ℕ) : ℚ)))).toNat ≤ max_px :=
        Int.toNat_le.mpr hp
      omega
    rcases le_total h w with hcase | hcase
    · have hwm : max h w = w := max_eq_right hcase
      have h1 : max 1 (pyRound ((w : ℚ) *
          ((max_px : ℚ) / ((max h w : ℕ) : ℚ)))).toNat = max_px := by
        rw [show ((w : ℕ) : ℚ) = ((max h w : ℕ) : ℚ) by rw [hwm], hround_m,
          Int.toNat_natCast]
        omega
      rw [h1]
      exact max_eq_left (hside h (le_max_left h w))
    · have hhm : max h w = h := max_eq_left hcase
      have h2 : max 1 (pyRound ((h : ℚ) *
          ((max_px : ℚ) / ((max h w : ℕ) : ℚ)))).toNat = max_px := by
        rw [show ((h : ℕ) : ℚ) = ((max h w : ℕ) : ℚ) by rw [hhm], hround_m,
          Int.toNat_natCast]
        omega
      rw [h2]
      exact max_eq_right (hside w (le_max_right h w))

/-- C7 counterexample: with limit_px = 128 and padding = 1 the content target
is 126, but a 10x10 cell is exported unchanged — its longest side stays 10,
it is not upscaled to the target as the claim demands for cells smaller than
the target. -/
theorem limit_fit_no_upscale_cx :
    limit_size_keep_aspect 10 10 (max 1 (128 - 1 * 2)) = (10, 10) ∧
    max (limit_size_keep_aspect 10 10 (max 1 (128 - 1 * 2))).1
      (limit_size_keep_aspect 10 10 (max 1 (128 - 1 * 2))).2 ≠ 128 - 1 * 2 := by
  decide

/-- Witness for C7's amended theorem: a 10x10 cell within a target of 126
stays 10x10, and a 200x100 cell with target 128 is scaled to longest side
exactly 128. -/
theorem limit_fit_amended_witness :
    limit_size_keep_aspect 10 10 126 = (10, 10) ∧
    max (limit_size_keep_aspect 200 100 128).1
      (limit_size_keep_aspect 200 100 128).2 = 128 :=
  ⟨(limit_fit_amended 10 10 126 (by decide) (by decide)).1 (by decide),
   (limit_fit_amended 200 100 128 (by decide) (by decide)).2 (by decide)
     (by decide)⟩

end IconGrid

namespace IconGrid

/-! ## C5: divider lists are strictly ascending after commit -/

theorem nodup_append_singleton {l : List ℤ} {x : ℤ} (h : l.Nodup)
    (hx : x ∉ l) : (l ++ [x]).Nodup := by
  rw [List.nodup_append]
  exact ⟨h, List.nodup_singleton x, by
    intro a ha hmem
    rw [List.mem_singleton] at hmem
    exact hx (hmem ▸ ha)⟩

theorem insertionSort_nodup {l : List ℤ} (h : l.Nodup) :
    (l.insertionSort (· ≤ ·)).Nodup :=
  (List.perm_insertionSort (· ≤ ·) l).nodup_iff.mpr h

theorem add_line_nodup (dim : ℕ) (v : ℤ) {l : List ℤ} (h : l.Nodup) :
    (add_line dim v l).Nodup := by
  simp only [add_line]
  split_ifs with hmem
  · exact h
  · exact insertionSort_nodup (nodup_append_singleton h hmem)

theorem move_line_nodup (old new : ℤ) {l : List ℤ} (h : l.Nodup) :
    (move_line old new l).Nodup := by
  unfold move_line
  set l1 := if old ∈ l then l.erase old else l with hl1
  have h1 : l1.Nodup := by
    rw [hl1]
    split_ifs
    · exact h.erase old
    · exact h
  by_cases hmem : new ∈ l1
  · simp only [if_pos hmem]
    exact h1
  · simp only [if_neg hmem]
    exact nodup_append_singleton h1 hmem

theorem remove_nearest_nodup (pos : ℤ) {l : List ℤ} (h : l.Nodup) :
    (remove_nearest pos l).Nodup := by
  cases l with
  | nil => exact h
  | cons x xs =>
    simp only [remove_nearest]
    split_ifs
    · exact h.erase _
    · exact h

theorem remove_line_nodup (v : ℤ) {l : List ℤ} (h : l.Nodup) :
    (remove_line v l).Nodup := by
  unfold remove_line
  split_ifs
  · exact h.erase v
  · exact h

theorem applyOp_nodup (W H : ℕ) (s : GridState) (op : GridOp)
    (hx : s.x_lines.Nodup) (hy : s.y_lines.Nodup) :
    (applyOp W H s op).x_lines.Nodup ∧ (applyOp W H s op).y_lines.Nodup := by
  cases op <;>
    simp only [applyOp, on_line_release] <;>
    exact ⟨by first
            | exact hx
            | exact add_line_nodup _ _ hx
            | exact move_line_nodup _ _ hx
            | exact remove_nearest_nodup _ hx
            | exact remove_line_nodup _ hx
            | exact insertionSort_nodup hx
            | exact List.nodup_nil,
          by first
            | exact hy
            | exact add_line_nodup _ _ hy
            | exact move_line_nodup _ _ hy
            | exact remove_nearest_nodup _ hy
            | exact remove_line_nodup _ hy
            | exact insertionSort_nodup hy
            | exact List.nodup_nil⟩

theorem applyOps_nodup (W H : ℕ) (ops : List GridOp) :
    ∀ s : GridState, s.x_lines.Nodup → s.y_lines.Nodup →
      (applyOps W H s ops).x_lines.Nodup ∧
      (applyOps W H s ops).y_lines.Nodup := by
  induction ops with
  | nil => intro s hx hy; exact ⟨hx, hy⟩
  | cons op rest ih =>
    intro s hx hy
    have h := applyOp_nodup W H s op hx hy
    exact ih (applyOp W H s op) h.1 h.2

/-- C5: starting from an empty divider set, after any sequence of interactive
add / drag-move / remove operations followed by the commit that runs on drag
release (on_line_release sorts both lists), both divider lists are strictly
ascending — in particular duplicate-free. -/
theorem commit_strictly_ascending (W H : ℕ) (ops : List GridOp) :
    (on_line_release (applyOps W H ⟨[], []⟩ ops)).x_lines.Sorted (· < ·) ∧
    (on_line_release (applyOps W H ⟨[], []⟩ ops)).y_lines.Sorted (· < ·) := by
  have h := applyOps_nodup W H ops ⟨[], []⟩ List.nodup_nil List.nodup_nil
  unfold on_line_release
  constructor
  · exact (List.sorted_insertionSort (· ≤ ·) _).lt_of_le
      (insertionSort_nodup h.1)
  · exact (List.sorted_insertionSort (· ≤ ·) _).lt_of_le
      (insertionSort_nodup h.2)

end IconGrid

namespace IconGrid

/-! ## C2: auto-scale reference factor -/

/-- Exact-arithmetic core of the auto-scale policy: in the rational
idealization (no floating-point rounding) the derived factor scales the
reference cell so that its longest side equals max(1, limit_px - 2*padding)
exactly. The claim-level theorem auto_scale_ref_amended combines this with
the float-perturbed bound that holds of the interpreter's doubles. -/
theorem auto_scale_ref_exact (limit_px padding mw mh : ℕ) (a : ℤ)
    (ha : 0 < a) (hw : 1 ≤ mw) (hh : 1 ≤ mh) :
    max (resize_by_scale mw mh
          (ref_scale_factor_calc limit_px padding (a, mw, mh))).1
        (resize_by_scale mw mh
          (ref_scale_factor_calc limit_px padding (a, mw, mh))).2 =
      max 1 (limit_px - padding * 2) := by
  set A := max 1 (limit_px - padding * 2) with hAdef
  have hA : 1 ≤ A := le_max_left _ _
  have hAq : (0 : ℚ) < (A : ℚ) := by exact_mod_cast lt_of_lt_of_le one_pos hA
  have hwq : (0 : ℚ) < (mw : ℚ) := by exact_mod_cast lt_of_lt_of_le one_pos hw
  have hhq : (0 : ℚ) < (mh : ℚ) := by exact_mod_cast lt_of_lt_of_le one_pos hh
  have hpos : 0 < min ((A : ℚ) / (mw : ℚ)) ((A : ℚ) / (mh : ℚ)) :=
    lt_min (div_pos hAq hwq) (div_pos hAq hhq)
  have hf : ref_scale_factor_calc limit_px padding (a, mw, mh) =
      min ((A : ℚ) / (mw : ℚ)) ((A : ℚ) / (mh : ℚ)) := by
    simp only [ref_scale_factor_calc]
    rw [if_pos ha, if_neg (not_le.mpr hpos)]
  rw [hf]
  rcases le_total mh mw with hc | hc
  · have hle : (A : ℚ) / (mw : ℚ) ≤ (A : ℚ) / (mh : ℚ) := by
      rw [div_le_div_iff₀ hwq hhq]
      exact mul_le_mul_of_nonneg_left (by exact_mod_cast hc) (le_of_lt hAq)
    rw [min_eq_left hle]
    have e1 : (mw : ℚ) * ((A : ℚ) / (mw : ℚ)) = (A : ℚ) :=
      mul_div_cancel₀ _ (ne_of_gt hwq)
    by_cases hone : (A : ℚ) / (mw : ℚ) = 1
    · rw [resize_by_scale, if_pos hone]
      have hAmw : A = mw := by
        rw [div_eq_one_iff_eq (ne_of_gt hwq)] at hone
        exact_mod_cast hone
      simp only []
      omega
    · rw [resize_by_scale, if_neg hone]
      have f1 : ⌊(mw : ℚ) * ((A : ℚ) / (mw : ℚ))⌋ = ((A : ℕ) : ℤ) := by
        rw [e1, Int.floor_natCast]
      have harg : (mh : ℚ) * ((A : ℚ) / (mw : ℚ)) ≤ (A : ℚ) := by
        calc (mh : ℚ) * ((A : ℚ) / (mw : ℚ)) ≤
            (mw : ℚ) * ((A : ℚ) / (mw : ℚ)) :=
              mul_le_mul_of_nonneg_right (by exact_mod_cast hc)
                (le_of_lt (div_pos hAq hwq))
          _ = (A : ℚ) := e1
      have f2 : ⌊(mh : ℚ) * ((A : ℚ) / (mw : ℚ))⌋ ≤ ((A : ℕ) : ℤ) := by
        calc ⌊(mh : ℚ) * ((A : ℚ) / (mw : ℚ))⌋ ≤ ⌊(A : ℚ)⌋ :=
              Int.floor_mono harg
          _ = ((A : ℕ) : ℤ) := Int.floor_natCast A
      have g1 : (⌊(mw : ℚ) * ((A : ℚ) / (mw : ℚ))⌋).toNat = A := by
        rw [f1, Int.toNat_natCast]
      have g2 : (⌊(mh : ℚ) * ((A : ℚ) / (mw : ℚ))⌋).toNat ≤ A :=
        Int.toNat_le.mpr f2
      simp only []
      omega
  · have hle : (A : ℚ) / (mh : ℚ) ≤ (A : ℚ) / (mw : ℚ) := by
      rw [div_le_div_iff₀ hhq hwq]
      exact mul_le_mul_of_nonneg_left (by exact_mod_cast hc) (le_of_lt hAq)
    rw [min_eq_right hle]
    have e1 : (mh : ℚ) * ((A : ℚ) / (mh : ℚ)) = (A : ℚ) :=
      mul_div_cancel₀ _ (ne_of_gt hhq)
    by_cases hone : (A : ℚ) / (mh : ℚ) = 1
    · rw [resize_by_scale, if_pos hone]
      have hAmh : A = mh := by
        rw [div_eq_one_iff_eq (ne_of_gt hhq)] at hone
        exact_mod_cast hone
      simp only []
      omega
    · rw [resize_by_scale, if_neg hone]
      have f1 : ⌊(mh : ℚ) * ((A : ℚ) / (mh : ℚ))⌋ = ((A : ℕ) : ℤ) := by
        rw [e1, Int.floor_natCast]
      have harg : (mw : ℚ) * ((A : ℚ) / (mh : ℚ)) ≤ (A : ℚ) := by
        calc (mw : ℚ) * ((A : ℚ) / (mh : ℚ)) ≤
            (mh : ℚ) * ((A : ℚ) / (mh : ℚ)) :=
              mul_le_mul_of_nonneg_right (by exact_mod_cast hc)
                (le_of_lt (div_pos hAq hhq))
          _ = (A : ℚ) := e1
      have f2 : ⌊(mw : ℚ) * ((A : ℚ) / (mh : ℚ))⌋ ≤ ((A : ℕ) : ℤ) := by
        calc ⌊(mw : ℚ) * ((A : ℚ) / (mh : ℚ))⌋ ≤ ⌊(A : ℚ)⌋ :=
              Int.floor_mono harg
          _ = ((A : ℕ) : ℤ) := Int.floor_natCast A
      have g1 : (⌊(mh : ℚ) * ((A : ℚ) / (mh : ℚ))⌋).toNat = A := by
        rw [f1, Int.toNat_natCast]
      have g2 : (⌊(mw : ℚ) * ((A : ℚ) / (mh : ℚ))⌋).toNat ≤ A :=
        Int.toNat_le.mpr f2
      simp only []
      omega

theorem resize_by_scale_eq_float_zero (w h : ℕ) (s : ℚ) :
    resize_by_scale w h s = resize_by_scale_float w h s 0 0 := by
  unfold resize_by_scale resize_by_scale_float
  simp

theorem float_term_eq_band (A u : ℕ) (hA : 1 ≤ A) (hu : 1 ≤ u) (e : ℚ)
    (he : |e| < 1) :
    A - 1 ≤ max 1 (Int.toNat ⌊(u : ℚ) * ((A : ℚ) / u) + e⌋) ∧
    max 1 (Int.toNat ⌊(u : ℚ) * ((A : ℚ) / u) + e⌋) ≤ A := by
  have huq : (0 : ℚ) < u := by exact_mod_cast lt_of_lt_of_le one_pos hu
  have hexact : (u : ℚ) * ((A : ℚ) / u) = (A : ℚ) :=
    mul_div_cancel₀ _ (ne_of_gt huq)
  have habs := abs_lt.mp he
  have hlow : ((A : ℤ) - 1) ≤ ⌊(u : ℚ) * ((A : ℚ) / u) + e⌋ := by
    rw [hexact, Int.le_floor]
    push_cast
    linarith [habs.1]
  have hhigh : ⌊(u : ℚ) * ((A : ℚ) / u) + e⌋ < (A : ℤ) + 1 := by
    rw [hexact, Int.floor_lt]
    push_cast
    linarith [habs.2]
  omega

theorem float_term_le (A u v : ℕ) (hA : 1 ≤ A) (hu : 1 ≤ u) (hvu : v ≤ u)
    (e : ℚ) (he : |e| < 1) :
    max 1 (Int.toNat ⌊(v : ℚ) * ((A : ℚ) / u) + e⌋) ≤ A := by
  have huq : (0 : ℚ) < u := by exact_mod_cast lt_of_lt_of_le one_pos hu
  have hexact : (u : ℚ) * ((A : ℚ) / u) = (A : ℚ) :=
    mul_div_cancel₀ _ (ne_of_gt huq)
  have habs := abs_lt.mp he
  have harg : (v : ℚ) * ((A : ℚ) / u) ≤ (A : ℚ) := by
    calc (v : ℚ) * ((A : ℚ) / u) ≤ (u : ℚ) * ((A : ℚ) / u) :=
          mul_le_mul_of_nonneg_right (by exact_mod_cast hvu) (by positivity)
      _ = (A : ℚ) := hexact
  have hhigh : ⌊(v : ℚ) * ((A : ℚ) / u) + e⌋ < (A : ℤ) + 1 := by
    rw [Int.floor_lt]
    push_cast
    linarith [habs.2]
  omega

/-- C2 amended: when the auto-scale pre-pass found a cell (positive max
area, reference dimensions mw x mh), one global factor
min(available/mw, available/mh) with available = max(1, limit_px - 2*padding)
is derived from that cell's dimensions. Under the interpreter's
double-precision arithmetic — modelled by perturbing each truncated product
by any error of magnitude below one unit, which over-approximates the actual
sub-1e-12 rounding error — the reference cell's scaled longest side lies
within one pixel below the content target:
available - 1 <= max(scaled_w, scaled_h) <= available (the lower end is
attained, e.g. a 49x49 cell at limit 256 scales to 255). In the exact
zero-perturbation instance, which is the resize_by_scale used by the pipeline
model, the longest side equals available exactly. export_slices passes this
same single factor to resize_by_scale for every exported cell. -/
theorem auto_scale_ref_amended (limit_px padding mw mh : ℕ) (a : ℤ)
    (ha : 0 < a) (hw : 1 ≤ mw) (hh : 1 ≤ mh) (ew eh : ℚ)
    (hew : |ew| < 1) (heh : |eh| < 1) :
    (max 1 (limit_px - padding * 2) - 1 ≤
        max (resize_by_scale_float mw mh
              (ref_scale_factor_calc limit_px padding (a, mw, mh)) ew eh).1
            (resize_by_scale_float mw mh
              (ref_scale_factor_calc limit_px padding (a, mw, mh)) ew eh).2 ∧
      max (resize_by_scale_float mw mh
            (ref_scale_factor_calc limit_px padding (a, mw, mh)) ew eh).1
          (resize_by_scale_float mw mh
            (ref_scale_factor_calc limit_px padding (a, mw, mh)) ew eh).2 ≤
        max 1 (limit_px - padding * 2)) ∧
    resize_by_scale mw mh
        (ref_scale_factor_calc limit_px padding (a, mw, mh)) =
      resize_by_scale_float mw mh
        (ref_scale_factor_calc limit_px padding (a, mw, mh)) 0 0 ∧
    max (resize_by_scale mw mh
          (ref_scale_factor_calc limit_px padding (a, mw, mh))).1
        (resize_by_scale mw mh
          (ref_scale_factor_calc limit_px padding (a, mw, mh))).2 =
      max 1 (limit_px - padding * 2) := by
  refine ⟨?_, resize_by_scale_eq_float_zero mw mh _,
    auto_scale_ref_exact limit_px padding mw mh a ha hw hh⟩
  have hA : 1 ≤ max 1 (limit_px - padding * 2) := le_max_left _ _
  have hAq : (0 : ℚ) < ((max 1 (limit_px - padding * 2) : ℕ) : ℚ) := by
    exact_mod_cast lt_of_lt_of_le one_pos hA
  have hwq : (0 : ℚ) < (mw : ℚ) := by exact_mod_cast lt_of_lt_of_le one_pos hw
  have hhq : (0 : ℚ) < (mh : ℚ) := by exact_mod_cast lt_of_lt_of_le one_pos hh
  have hpos : 0 <
      min (((max 1 (limit_px - padding * 2) : ℕ) : ℚ) / (mw : ℚ))
        (((max 1 (limit_px - padding * 2) : ℕ) : ℚ) / (mh : ℚ)) :=
    lt_min (div_pos hAq hwq) (div_pos hAq hhq)
  have hf : ref_scale_factor_calc limit_px padding (a, mw, mh) =
      min (((max 1 (limit_px - padding * 2) : ℕ) : ℚ) / (mw : ℚ))
        (((max 1 (limit_px - padding * 2) : ℕ) : ℚ) / (mh : ℚ)) := by
    simp only [ref_scale_factor_calc]
    rw [if_pos ha, if_neg (not_le.mpr hpos)]
  rw [hf]
  rcases le_total mh mw with hc | hc
  · have hle : ((max 1 (limit_px - padding * 2) : ℕ) : ℚ) / (mw : ℚ) ≤
        ((max 1 (limit_px - padding * 2) : ℕ) : ℚ) / (mh : ℚ) := by
      rw [div_le_div_iff₀ hwq hhq]
      exact mul_le_mul_of_nonneg_left (by exact_mod_cast hc) (le_of_lt hAq)
    rw [min_eq_left hle]
    by_cases hone :
        ((max 1 (limit_px - padding * 2) : ℕ) : ℚ) / (mw : ℚ) = 1
    · rw [resize_by_scale_float, if_pos hone]
      have hAmw : max 1 (limit_px - padding * 2) = mw := by
        rw [div_eq_one_iff_eq (ne_of_gt hwq)] at hone
        exact_mod_cast hone
      dsimp only
      omega
    · rw [resize_by_scale_float, if_neg hone]
      dsimp only
      have hb := float_term_eq_band (max 1 (limit_px - padding * 2)) mw hA hw
        ew hew
      have hl := float_term_le (max 1 (limit_px - padding * 2)) mw mh hA hw hc
        eh heh
      omega
  · have hle : ((max 1 (limit_px - padding * 2) : ℕ) : ℚ) / (mh : ℚ) ≤
        ((max 1 (limit_px - padding * 2) : ℕ) : ℚ) / (mw : ℚ) := by
      rw [div_le_div_iff₀ hhq hwq]
      exact mul_le_mul_of_nonneg_left (by exact_mod_cast hc) (le_of_lt hAq)
    rw [min_eq_right hle]
    by_cases hone :
        ((max 1 (limit_px - padding * 2) : ℕ) : ℚ) / (mh : ℚ) = 1
    · rw [resize_by_scale_float, if_pos hone]
      have hAmh : max 1 (limit_px - padding * 2) = mh := by
        rw [div_eq_one_iff_eq (ne_of_gt hhq)] at hone
        exact_mod_cast hone
      dsimp only
      omega
    · rw [resize_by_scale_float, if_neg hone]
      dsimp only
      have hb := float_term_eq_band (max 1 (limit_px - padding * 2)) mh hA hh
        eh heh
      have hl := float_term_le (max 1 (limit_px - padding * 2)) mh mw hA hh hc
        ew hew
      omega

/-- C2 counterexample: a single fully opaque 5x5 cell with limit_px = 2 and
padding = 1. The pre-pass selects it (area 25), the derived factor is 1/5 and
the scaled reference cell is 1x1, so max(scaled_w, scaled_h) = 1, whereas the
claim demands limit_px - 2*padding = 0: the code clamps the available size at
1, the claimed equation fails. -/
theorem auto_scale_target_cx :
    pre_scan ⟨5, 5, fun _ _ => (0, 0, 0, 255)⟩ (slice_coords [] 5)
        (slice_coords [] 5) [] false = (25, 5, 5) ∧
    ref_scale_factor_calc 2 1 (25, 5, 5) = 1 / 5 ∧
    resize_by_scale 5 5 (ref_scale_factor_calc 2 1 (25, 5, 5)) = (1, 1) ∧
    max (resize_by_scale 5 5 (ref_scale_factor_calc 2 1 (25, 5, 5))).1
        (resize_by_scale 5 5 (ref_scale_factor_calc 2 1 (25, 5, 5))).2 ≠
      2 - 2 * 1 := by
  have hcalc : ref_scale_factor_calc 2 1 (25, 5, 5) = 1 / 5 := by
    norm_num [ref_scale_factor_calc]
  have hresize : resize_by_scale 5 5 (ref_scale_factor_calc 2 1 (25, 5, 5)) =
      (1, 1) := by
    rw [hcalc]
    norm_num [resize_by_scale]
  refine ⟨by decide, hcalc, hresize, ?_⟩
  rw [hresize]
  decide

/-- Witness for C2's amended theorem, on the claim's own example: trimmed
cells 100x50 and 50x50 with limit_px = 128, padding = 0. The pre-pass over a
concrete 150x50 image split at x = 100 yields (5000, 100, 50); under any
product perturbation of magnitude 1/2 the reference cell's scaled longest
side lies in [127, 128], in exact arithmetic it is 128 = max(1, 128 - 0),
giving 128x64, and the 50x50 cell becomes 64x64 under the same factor. -/
theorem auto_scale_ref_amended_witness :
    (max 1 (128 - 0 * 2) - 1 ≤
        max (resize_by_scale_float 100 50
              (ref_scale_factor_calc 128 0 (5000, 100, 50)) (1 / 2)
              (-(1 / 2))).1
            (resize_by_scale_float 100 50
              (ref_scale_factor_calc 128 0 (5000, 100, 50)) (1 / 2)
              (-(1 / 2))).2 ∧
      max (resize_by_scale_float 100 50
            (ref_scale_factor_calc 128 0 (5000, 100, 50)) (1 / 2)
            (-(1 / 2))).1
          (resize_by_scale_float 100 50
            (ref_scale_factor_calc 128 0 (5000, 100, 50)) (1 / 2)
            (-(1 / 2))).2 ≤
        max 1 (128 - 0 * 2)) ∧
    max (resize_by_scale 100 50
          (ref_scale_factor_calc 128 0 (5000, 100, 50))).1
        (resize_by_scale 100 50
          (ref_scale_factor_calc 128 0 (5000, 100, 50))).2 =
      max 1 (128 - 0 * 2) ∧
    resize_by_scale 100 50 (ref_scale_factor_calc 128 0 (5000, 100, 50)) =
      (128, 64) ∧
    resize_by_scale 50 50 (ref_scale_factor_calc 128 0 (5000, 100, 50)) =
      (64, 64) ∧
    pre_scan ⟨150, 50, fun _ _ => (0, 0, 0, 255)⟩ (slice_coords [100] 150)
      (slice_coords [] 50) [] false = (5000, 100, 50) := by
  have h := auto_scale_ref_amended 128 0 100 50 5000 (by decide) (by decide)
    (by decide) (1 / 2) (-(1 / 2))
    (by rw [abs_lt]; constructor <;> norm_num)
    (by rw [abs_lt]; constructor <;> norm_num)
  have hcalc : ref_scale_factor_calc 128 0 (5000, 100, 50) = 32 / 25 := by
    norm_num [ref_scale_factor_calc, min_def]
  refine ⟨h.1, h.2.2, ?_, ?_, by decide⟩
  · rw [hcalc]
    norm_num [resize_by_scale]
    decide
  · rw [hcalc]
    norm_num [resize_by_scale]
    decide

end IconGrid

namespace IconGrid

/-! ## C3: export naming counter -/

theorem auto_before_cons (fate : ℕ × ℕ → Option (Option String × ℕ × ℕ))
    (rc : ℕ × ℕ) (t : List (ℕ × ℕ)) (i : ℕ) :
    auto_before fate (rc :: t) (i + 1) =
      (if is_auto fate rc then 1 else 0) + auto_before fate t i := by
  unfold auto_before
  rw [List.take_succ_cons, List.filter_cons]
  cases hab : is_auto fate rc <;> simp [hab] <;> omega

theorem export_loop_closed (fate : ℕ × ℕ → Option (Option String × ℕ × ℕ))
    (ext : String) :
    ∀ (l : List (ℕ × ℕ)) (idx : ℕ),
      export_loop fate ext l idx =
        (List.range l.length).filterMap (fun i =>
          match fate (l.getD i (0, 0)) with
          | none => none
          | some (some base, w, h) => some (base ++ ext, w, h)
          | some (none, w, h) =>
              some (auto_name (idx + 1 + auto_before fate l i)
                (l.getD i (0, 0)).1 (l.getD i (0, 0)).2 ++ ext, w, h)) := by
  intro l
  induction l with
  | nil => intro idx; rfl
  | cons rc t ih =>
    intro idx
    have hcomp : ∀ idx0 : ℕ,
        ((fun i =>
          match fate ((rc :: t).getD i (0, 0)) with
          | none => none
          | some (some base, w, h) => some (base ++ ext, w, h)
          | some (none, w, h) =>
              some (auto_name (idx0 + 1 + auto_before fate (rc :: t) i)
                ((rc :: t).getD i (0, 0)).1 ((rc :: t).getD i (0, 0)).2 ++ ext,
                w, h)) ∘ Nat.succ) =
        (fun i =>
          match fate (t.getD i (0, 0)) with
          | none => none
          | some (some base, w, h) => some (base ++ ext, w, h)
          | some (none, w, h) =>
              some (auto_name ((idx0 + (if is_auto fate rc then 1 else 0)) +
                  1 + auto_before fate t i)
                (t.getD i (0, 0)).1 (t.getD i (0, 0)).2 ++ ext, w, h)) := by
      intro idx0
      funext i
      simp only [Function.comp_apply, List.getD_cons_succ, auto_before_cons]
      rcases hfi : fate (t.getD i (0, 0)) with _ | ⟨nob, w, h⟩
      · rfl
      · rcases nob with _ | base
        · have harith : idx0 + 1 + ((if is_auto fate rc then 1 else 0) +
              auto_before fate t i) =
              (idx0 + (if is_auto fate rc then 1 else 0)) + 1 +
                auto_before fate t i := by omega
          simp only [harith]
        · rfl
    rcases hf : fate rc with _ | ⟨nob, w, h⟩
    · simp only [export_loop, hf]
      rw [List.length_cons, List.range_succ_eq_map, List.filterMap_cons,
        List.filterMap_map, hcomp idx]
      have hauto : is_auto fate rc = false := by simp [is_auto, hf]
      simp [hf, hauto]
      simpa using ih idx
    · rcases nob with _ | base
      · simp only [export_loop, hf]
        rw [List.length_cons, List.range_succ_eq_map, List.filterMap_cons,
          List.filterMap_map, hcomp idx]
        have hauto : is_auto fate rc = true := by simp [is_auto, hf]
        have h0 : auto_before fate (rc :: t) 0 = 0 := by
          simp [auto_before]
        simp [hf, hauto, h0]
        simpa using ih (idx + 1)
      · simp only [export_loop, hf]
        rw [List.length_cons, List.range_succ_eq_map, List.filterMap_cons,
          List.filterMap_map, hcomp idx]
        have hauto : is_auto fate rc = false := by simp [is_auto, hf]
        simp [hf, hauto]
        simpa using ih idx

/-- C3 amended: the auto-generated stem uses a pipeline-wide counter that
starts at 1 and is incremented exactly once per exported cell that has no
non-empty assigned name; skipped cells (ignored or fully transparent) and
cells exported under an assigned name consume no index. Closed form: the
i-th traversed cell, when exported unnamed, receives index
1 + (number of earlier unnamed exported cells). In particular the claim's
2x2 scenario (cell (0,1) ignored, cell (1,0) fully transparent) produces
exactly two files with indices 1 and 2. -/
theorem export_naming_amended :
    (∀ (fate : ℕ × ℕ → Option (Option String × ℕ × ℕ)) (ext : String)
        (l : List (ℕ × ℕ)) (idx : ℕ),
      export_loop fate ext l idx =
        (List.range l.length).filterMap (fun i =>
          match fate (l.getD i (0, 0)) with
          | none => none
          | some (some base, w, h) => some (base ++ ext, w, h)
          | some (none, w, h) =>
              some (auto_name (idx + 1 + auto_before fate l i)
                (l.getD i (0, 0)).1 (l.getD i (0, 0)).2 ++ ext, w, h))) ∧
    export_slices
        ⟨2, 2, fun x y => if x = 0 ∧ y = 1 then (0, 0, 0, 0) else (0, 0, 0, 255)⟩
        [1] [1] [] [(0, 1)] ⟨"png", false, 0, 0, false⟩ =
      [("icon_001_r00_c00.png", 1, 1), ("icon_002_r01_c01.png", 1, 1)] :=
  ⟨fun fate ext l idx => export_loop_closed fate ext l idx, by decide⟩

/-- C3 counterexample: a 1x2 opaque grid whose first cell carries the
assigned name "foo". Both cells are exported, yet the unnamed second cell
receives auto index 1 — the naming counter is not incremented for the named
cell, contradicting the claim that every cell reaching the stem step
consumes an index (which would give the second cell index 2). -/
theorem export_naming_cx :
    (export_slices ⟨2, 1, fun _ _ => (0, 0, 0, 255)⟩ [1] [] [((0, 0), "foo")]
        [] ⟨"png", false, 0, 0, false⟩).map Prod.fst =
      ["foo.png", "icon_001_r00_c01.png"] ∧
    (export_slices ⟨2, 1, fun _ _ => (0, 0, 0, 255)⟩ [1] [] [((0, 0), "foo")]
        [] ⟨"png", false, 0, 0, false⟩).map Prod.fst ≠
      ["foo.png", "icon_002_r00_c01.png"] := by
  refine ⟨by decide, by decide⟩

end IconGrid

namespace IconGrid

/-! ## C1: the export partition exactly tiles the image -/

theorem slice_coords_getD_zero (lines : List ℤ) (dim : ℤ) :
    (slice_coords lines dim).getD 0 0 = 0 := rfl

theorem slice_coords_getLast (lines : List ℤ) (dim : ℤ) :
    (slice_coords lines dim).getLast? = some dim := by
  unfold slice_coords
  rw [← List.cons_append]
  exact List.getLast?_concat _

theorem slice_coords_sorted (lines : List ℤ) (dim : ℤ) (hdim : 0 < dim) :
    (slice_coords lines dim).Sorted (· < ·) := by
  unfold slice_coords
  set inner :=
    ((lines.filter fun v => decide (0 < v ∧ v < dim)).dedup).insertionSort
      (· ≤ ·) with hinner
  have hmem : ∀ v ∈ inner, 0 < v ∧ v < dim := by
    intro v hv
    rw [hinner] at hv
    have hv2 : v ∈ (lines.filter fun v => decide (0 < v ∧ v < dim)).dedup :=
      (List.perm_insertionSort (· ≤ ·) _).mem_iff.mp hv
    have hv3 := List.mem_dedup.mp hv2
    have hv4 := (List.mem_filter.mp hv3).2
    exact of_decide_eq_true hv4
  have hsle : inner.Sorted (· ≤ ·) := by
    rw [hinner]
    exact List.sorted_insertionSort _ _
  have hnd : inner.Nodup := by
    rw [hinner]
    exact (List.perm_insertionSort (· ≤ ·) _).nodup_iff.mpr (List.nodup_dedup _)
  have hslt : inner.Sorted (· < ·) := hsle.lt_of_le hnd
  rw [List.sorted_cons]
  refine ⟨?_, ?_⟩
  · intro b hb
    rcases List.mem_append.mp hb with h | h
    · exact (hmem b h).1
    · rw [List.mem_singleton] at h
      omega
  · rw [List.Sorted, List.pairwise_append]
    refine ⟨hslt, List.pairwise_singleton _ _, ?_⟩
    intro v hv b hb
    rw [List.mem_singleton] at hb
    subst hb
    exact (hmem v hv).2

theorem sorted_getD_le_getLast (l : List ℤ) (hs : l.Sorted (· < ·)) (L : ℤ)
    (hL : l.getLast? = some L) (i : ℕ) (hi : i < l.length) :
    l.getD i 0 ≤ L := by
  have hne : l ≠ [] := by
    rintro rfl
    simp at hL
  have hlen : 0 < l.length := List.length_pos.mpr hne
  have hget : l.getD (l.length - 1) 0 = L := by
    rw [List.getD_eq_getElem?_getD, ← List.getLast?_eq_getElem?, hL]
    rfl
  calc l.getD i 0 ≤ l.getD (l.length - 1) 0 :=
        sorted_getD_le l hs i (l.length - 1) (by omega) (by omega)
    _ = L := hget

theorem segment_exists_unique :
    ∀ bs : List ℤ, bs.Sorted (· < ·) → ∀ a L p : ℤ,
      bs.head? = some a → bs.getLast? = some L → a ≤ p → p < L →
      ∃! i, cell_bounds bs i p := by
  intro bs
  induction bs with
  | nil =>
    intro _ a L p hh
    simp at hh
  | cons x t ih =>
    intro hs a L p hh hl hap hpL
    have hax : x = a := by simpa using hh
    subst hax
    cases t with
    | nil =>
      exfalso
      have : x = L := by simpa [List.getLast?] using hl
      omega
    | cons y t2 =>
      have hs' : (y :: t2).Sorted (· < ·) := hs.of_cons
      have hxy : x < y := (List.sorted_cons.mp hs).1 y (by simp)
      have hl' : (y :: t2).getLast? = some L := by
        rwa [List.getLast?_cons_cons] at hl
      rcases lt_or_le p y with hpy | hyp
      · refine ⟨0, ⟨by simp, by simpa using hap, by simpa using hpy⟩, ?_⟩
        intro j hj
        rcases j with _ | k
        · rfl
        · exfalso
          obtain ⟨hjlen, hjlo, hjhi⟩ := hj
          have hy2 : y ≤ (x :: y :: t2).getD (k + 1) 0 := by
            have h12 := sorted_getD_le (x :: y :: t2) hs 1 (k + 1)
              (by omega) (by omega)
            simpa using h12
          omega
      · obtain ⟨j, hj, hju⟩ := ih hs' y L p rfl hl' hyp hpL
        obtain ⟨h1, h2, h3⟩ := hj
        refine ⟨j + 1, ⟨by simpa using h1, by simpa using h2,
          by simpa using h3⟩, ?_⟩
        intro k hk
        rcases k with _ | m
        · exfalso
          obtain ⟨hk1, hk2, hk3⟩ := hk
          simp only [List.getD_cons_succ, List.getD_cons_zero] at hk3
          omega
        · obtain ⟨hk1, hk2, hk3⟩ := hk
          have hm : m = j := hju m ⟨by simpa using hk1, by simpa using hk2,
            by simpa using hk3⟩
          omega

/-- C1: for an image of positive dimensions W x H and arbitrary divider list
contents (duplicates, 0, the dimension itself, out-of-range values), the
partition built by export_slices — 0 and the dimension injected as implicit
boundaries, stored dividers filtered to lie strictly between them — tiles
[0,W) x [0,H) exactly: a point (p, q) lies in precisely one cell
[xs[c], xs[c+1]) x [ys[r], ys[r+1]) iff it lies in the image rectangle, so
there are no gaps and no overlaps. -/
theorem export_partition_tiles (x_lines y_lines : List ℤ) (W H : ℤ)
    (hW : 0 < W) (hH : 0 < H) (p q : ℤ) :
    (∃! rc : ℕ × ℕ,
        cell_bounds (slice_coords y_lines H) rc.1 q ∧
        cell_bounds (slice_coords x_lines W) rc.2 p) ↔
      (0 ≤ p ∧ p < W ∧ 0 ≤ q ∧ q < H) := by
  have hsx := slice_coords_sorted x_lines W hW
  have hsy := slice_coords_sorted y_lines H hH
  constructor
  · rintro ⟨⟨r, c⟩, ⟨hr, hc⟩, -⟩
    obtain ⟨hc1, hc2, hc3⟩ := hc
    obtain ⟨hr1, hr2, hr3⟩ := hr
    dsimp only at hc1 hc2 hc3 hr1 hr2 hr3
    have hx0 : (0 : ℤ) ≤ (slice_coords x_lines W).getD c 0 := by
      have h := sorted_getD_le _ hsx 0 c (Nat.zero_le c) (by omega)
      rwa [slice_coords_getD_zero] at h
    have hy0 : (0 : ℤ) ≤ (slice_coords y_lines H).getD r 0 := by
      have h := sorted_getD_le _ hsy 0 r (Nat.zero_le r) (by omega)
      rwa [slice_coords_getD_zero] at h
    have hxW : (slice_coords x_lines W).getD (c + 1) 0 ≤ W :=
      sorted_getD_le_getLast _ hsx W (slice_coords_getLast x_lines W) _ hc1
    have hyH : (slice_coords y_lines H).getD (r + 1) 0 ≤ H :=
      sorted_getD_le_getLast _ hsy H (slice_coords_getLast y_lines H) _ hr1
    omega
  · rintro ⟨hp0, hpW, hq0, hqH⟩
    obtain ⟨c, hc, hcu⟩ := segment_exists_unique (slice_coords x_lines W)
      hsx 0 W p rfl (slice_coords_getLast x_lines W) hp0 hpW
    obtain ⟨r, hr, hru⟩ := segment_exists_unique (slice_coords y_lines H)
      hsy 0 H q rfl (slice_coords_getLast y_lines H) hq0 hqH
    refine ⟨(r, c), ⟨hr, hc⟩, ?_⟩
    rintro ⟨r2, c2⟩ ⟨hr2, hc2⟩
    have e1 := hru r2 hr2
    have e2 := hcu c2 hc2
    simp [e1, e2]

/-- Witness for C1: in a 2x2 image split by one divider on each axis, the
point (1, 1) lies in exactly one cell. -/
theorem export_partition_tiles_witness :
    ∃! rc : ℕ × ℕ,
      cell_bounds (slice_coords [1] 2) rc.1 1 ∧
      cell_bounds (slice_coords [1] 2) rc.2 1 :=
  (export_partition_tiles [1] [1] 2 2 (by decide) (by decide) 1 1).mpr
    (by decide)

end IconGrid
